import Mathlib

/-!
Shallow embedding of the room-state coordination core of the Imposter
party-game app.  Two reference implementations exist in the repository:
a localStorage-backed one (`src/ImposterGameApp.jsx`, members stored as an
array) and a Firebase-backed one (`src/unnamed/part_000`, members stored as
an id-keyed map).  Definitions below are translated from those sources;
functions whose suffix is `FB` come from the Firebase variant.  Timestamps
(`Date.now()`) and the random shuffle are passed in as explicit parameters.
-/

namespace Imposter

/-- Player record, as stored in `room.players` (both implementations). -/
structure Player where
  id : String
  name : String
  role : String
  joinedAt : Nat
deriving DecidableEq

/-- Chat entry: the code pushes either `{system: true, text, ts}` or
`{playerId, name, text, ts}`. -/
inductive ChatMsg where
  | system (text : String) (ts : Nat)
  | player (playerId : String) (name : String) (text : String) (ts : Nat)
deriving DecidableEq

/-- Room document.  `leaderId` is an `Option` because the local
`kickPlayer` writes `null` into it when the member list empties.
The Firebase variant keys `players` by id; both are modelled as a list in
insertion order (`Object.keys`/`Object.values` order for the map). -/
structure Room where
  code : String
  leaderId : Option String
  impostersCount : Nat
  started : Bool
  turnIndex : Nat
  players : List Player
  chat : List ChatMsg
  createdAt : Nat
deriving DecidableEq

/-- JavaScript `String.prototype.trim`: strip whitespace from both ends,
written structurally so that it reduces inside the kernel. -/
def jsTrim (s : String) : String :=
  ⟨((s.data.dropWhile Char.isWhitespace).reverse.dropWhile Char.isWhitespace).reverse⟩

/-- From `createRoom` (`ImposterGameApp.jsx` lines 46-68): refuses with an
alert (modelled as `none`) when the display name is blank after trimming;
otherwise a fresh room with the creator as sole member and leader, one
imposter configured. -/
def createRoom (code meId nm : String) (now : Nat) : Option Room :=
  if jsTrim nm = "" then none
  else some
    { code := code
      leaderId := some meId
      impostersCount := 1
      started := false
      turnIndex := 0
      players := [{ id := meId, name := jsTrim nm, role := "crewmate", joinedAt := now }]
      chat := []
      createdAt := now }

/-- From `joinRoom` (`ImposterGameApp.jsx` lines 70-86): `none` models the
alerts that refuse the call without joining — first the blank-display-name
guard `if (!name.trim()) return alert(...)`, then "Game already started";
when the caller is already a member the room is returned unchanged;
otherwise a crewmate is appended. -/
def joinRoom (room : Room) (meId nm : String) (now : Nat) : Option Room :=
  if jsTrim nm = "" then none
  else if room.started then none
  else if room.players.any (fun p => p.id == meId) then some room
  else some { room with
    players := room.players ++ [{ id := meId, name := jsTrim nm, role := "crewmate", joinedAt := now }] }

/-- From `leaveRoom` (`ImposterGameApp.jsx` lines 88-108), acting on the
registry slot for the current room: filter the caller out; if the caller
was leader, promote `players[0]` of the filtered list or delete the room
when nobody remains.  `none` in / `none` out models the absent-room no-op. -/
def leaveRoom : Option Room → String → Option Room
  | none, _ => none
  | some room, meId =>
    let ps := room.players.filter (fun p => p.id != meId)
    if room.leaderId = some meId then
      match ps with
      | [] => none
      | q :: rest => some { room with players := q :: rest, leaderId := some q.id }
    else
      some { room with players := ps }

/-- From `setImposterCount` (`ImposterGameApp.jsx` lines 119-123).  The
source clamps with `Math.max(1, Math.min(count, Math.floor(room.players.length / 1)))`
— note the division by 1, so the upper clamp is the member count, not half. -/
def setImposterCount (room : Room) (count : Int) : Room :=
  { room with impostersCount := (max 1 (min count (room.players.length : Int))).toNat }

/-- Effective imposter count computed inside `startGame`:
`Math.min(room.impostersCount, Math.max(1, Math.floor(players.length / 2)))`. -/
def numImposters (r : Room) : Nat :=
  min r.impostersCount (max 1 (r.players.length / 2))

/-- From `startGame` (`ImposterGameApp.jsx` lines 125-142).  The
comparator-driven random shuffle is passed in as the `shuffled` list; the
source takes the first `numImposters` of it as the imposter id set, rewrites
every member's role, sets `started`, resets `turnIndex`, and appends a
system chat entry.  The stored `impostersCount` is not written back. -/
def startGame (r : Room) (shuffled : List Player) (now : Nat) : Room :=
  let k := numImposters r
  let imposterIds := (shuffled.take k).map Player.id
  { r with
    players := r.players.map (fun p =>
      { p with role := if p.id ∈ imposterIds then "imposter" else "crewmate" }),
    started := true,
    turnIndex := 0,
    chat := r.chat ++ [ChatMsg.system
      ("Game started. " ++ toString k ++ " imposters assigned.") now] }

/-- Makes explicit that the source `startGame` receives no requester
identity and reads none: the closure parameter `meId` is never consulted,
so the outcome is the same for every caller. -/
def startGameRequested (_requesterId : String) (r : Room) (shuffled : List Player)
    (now : Nat) : Room :=
  startGame r shuffled now

/-- The positional lookup `room.players[room.turnIndex % room.players.length]`
of `sendHint`; on an empty list the JavaScript index is `NaN` and the lookup
yields `undefined`, modelled as `none`. -/
def currentPlayer (r : Room) : Option Player :=
  r.players[r.turnIndex % r.players.length]?

/-- Outcome of the local `sendHint`: the "It's not your turn." alert leaves
the room untouched; success carries the updated room. -/
inductive SendHintOutcome where
  | notYourTurn
  | ok (r : Room)
deriving DecidableEq

/-- From `sendHint` (`ImposterGameApp.jsx` lines 144-154): no text
validation is performed; the only check is that the positional current
player exists and matches the caller, after which the (trimmed) entry is
appended and the turn pointer advances modulo the current member count. -/
def sendHint (r : Room) (meId nm text : String) (now : Nat) : SendHintOutcome :=
  match currentPlayer r with
  | none => .notYourTurn
  | some cp =>
    if cp.id = meId then
      .ok { r with
        chat := r.chat ++ [ChatMsg.player meId (jsTrim nm) (jsTrim text) now],
        turnIndex := (r.turnIndex + 1) % r.players.length }
    else .notYourTurn

/-- From `kickPlayer` (`ImposterGameApp.jsx` lines 156-167): filters the
target out unconditionally; if the target was the leader, `leaderId`
becomes `players[0].id` of the filtered list or `null` when it emptied.
The room document is kept in the registry in every case. -/
def kickPlayer (room : Room) (playerId : String) : Room :=
  let ps := room.players.filter (fun p => p.id != playerId)
  if room.leaderId = some playerId then
    { room with
      players := ps,
      leaderId := (match ps with | [] => none | q :: _ => some q.id) }
  else
    { room with players := ps }

/-- From `kickPlayer` (`src/unnamed/part_000` lines 258-273): the Firebase
variant checks `room.leaderId !== meId` before its transaction and returns
with an alert (room unchanged); otherwise the transaction deletes the
target's entry from the players map.  No leader promotion, no room
deletion. -/
def kickPlayerFB (room : Room) (meId targetId : String) : Room :=
  if room.leaderId ≠ some meId then room
  else { room with players := room.players.filter (fun p => p.id != targetId) }

/-- Outcome of the Firebase `sendHint`: the empty-member early return is a
silent no-op, distinct from the "not your turn" alert. -/
inductive HintFBOutcome where
  | noop
  | notYourTurn
  | ok (r : Room)
deriving DecidableEq

/-- From `sendHint` (`src/unnamed/part_000` lines 238-256): returns early
when the id list is empty, alerts when `playerIds[turnIndex % n]` is not
the caller, and otherwise appends the chat entry and advances the turn. -/
def sendHintFB (room : Room) (meId nm text : String) (now : Nat) : HintFBOutcome :=
  let playerIds := room.players.map Player.id
  if playerIds.length = 0 then .noop
  else
    match playerIds[room.turnIndex % playerIds.length]? with
    | none => .noop
    | some currentPlayerId =>
      if currentPlayerId = meId then
        .ok { room with
          chat := room.chat ++ [ChatMsg.player meId (jsTrim nm) (jsTrim text) now],
          turnIndex := (room.turnIndex + 1) % playerIds.length }
      else .notYourTurn

/-- The transform the Firebase `joinRoom` (`src/unnamed/part_000` lines
158-164) hands to `runTransaction`: insert the caller as crewmate unless
already present.  Modelled from the spec: the store's optimistic
read-modify-write (`transact`, spec section 4.6, external Firebase code not
in the repository) serializes concurrent transforms — one commits, the
other re-reads and re-applies — so a concurrent execution is modelled as
applying the two transforms in sequence, in either order. -/
def joinTransform (meId nm : String) (now : Nat) (players : List Player) : List Player :=
  if players.any (fun p => p.id == meId) then players
  else players ++ [{ id := meId, name := jsTrim nm, role := "crewmate", joinedAt := now }]

/-- One valid hint submission: the member whose turn it is (the positional
current player) calls `sendHint`.  Used to iterate full rotations. -/
def autoHint (now : Nat) (r : Room) : Room :=
  match currentPlayer r with
  | none => r
  | some cp =>
    match sendHint r cp.id cp.name "hint" now with
    | .ok r2 => r2
    | .notYourTurn => r

/-- Iterates `autoHint` k times: k consecutive valid hint submissions. -/
def autoHints (now : Nat) : Nat → Room → Room
  | 0, r => r
  | k + 1, r => autoHints now k (autoHint now r)

/-! Concrete rooms used by counterexamples, failing-input evaluations and
witnesses. -/

def pa : Player := { id := "a", name := "Alice", role := "crewmate", joinedAt := 1 }

def pb : Player := { id := "b", name := "Bob", role := "crewmate", joinedAt := 2 }

def pc : Player := { id := "c", name := "Carol", role := "crewmate", joinedAt := 3 }

/-- A one-member room whose sole member is the leader. -/
def soloRoom : Room :=
  { code := "AAAAAA", leaderId := some "a", impostersCount := 1, started := false
    turnIndex := 0, players := [pa], chat := [], createdAt := 0 }

/-- A two-member room led by Alice. -/
def duoRoom : Room :=
  { code := "BBBBBB", leaderId := some "a", impostersCount := 1, started := false
    turnIndex := 0, players := [pa, pb], chat := [], createdAt := 0 }

/-- A three-member room led by the earliest joiner. -/
def trioRoom : Room :=
  { code := "DDDDDD", leaderId := some "a", impostersCount := 1, started := false
    turnIndex := 0, players := [pa, pb, pc], chat := [], createdAt := 0 }

/-- A two-member room whose configured imposter count was raised to 2 via
`setImposterCount` (the local clamp divides by 1, so 2 is accepted). -/
def overCountRoom : Room := setImposterCount duoRoom 2

/-- C1: the claimed invariant fails in the code.  Kicking the sole member
of a room keeps the room in the registry with an empty `players` list and
`leaderId = null` (local implementation), and a Firebase-side self-kick by
the leader leaves `leaderId` pointing at the removed member while another
member remains.  Both contradict "every present room has a member and a
resolving leaderId". -/
theorem kick_violates_membership_invariant :
    kickPlayer soloRoom "a" = { soloRoom with players := [], leaderId := none }
    ∧ (kickPlayerFB duoRoom "a" "a").players.map Player.id = ["b"]
    ∧ (kickPlayerFB duoRoom "a" "a").leaderId = some "a" := by
  decide

/-- C5: the code performs no requester authorization for `startGame`.  In
the room led by Alice, a call on behalf of Bob (not the leader) starts the
game and mutates the room instead of failing. -/
theorem startGame_no_authorization :
    duoRoom.leaderId = some "a"
    ∧ (startGameRequested "b" duoRoom [pb, pa] 3).started = true
    ∧ startGameRequested "b" duoRoom [pb, pa] 3 ≠ duoRoom := by
  decide

/-- C4 counterexample: `sendHint` does not fail on text that is empty after
trimming.  With the current player calling, a blank text is accepted: the
trimmed (empty) entry is appended and the turn advances, so no
`ValidationError` exists on this path. -/
theorem sendHint_accepts_blank_text :
    jsTrim "   " = ""
    ∧ sendHint soloRoom "a" "Alice" "   " 5 =
        SendHintOutcome.ok { soloRoom with
          chat := [ChatMsg.player "a" "Alice" "" 5], turnIndex := 0 } := by
  decide

/-- C8 counterexample: after `startGame` on a two-member room configured
with `impostersCount = 2` (reachable via `setImposterCount`), the stored
`impostersCount` is still 2 while `floor(memberCount / 2) = 1`, so the
claimed bound `impostersCount ≤ floor(memberCount / 2)` fails with
`started = true`. -/
theorem stored_impostersCount_exceeds_half :
    (startGame overCountRoom [pb, pa] 5).started = true
    ∧ (startGame overCountRoom [pb, pa] 5).impostersCount = 2
    ∧ (startGame overCountRoom [pb, pa] 5).players.length / 2 = 1
    ∧ ¬((startGame overCountRoom [pb, pa] 5).impostersCount ≤
         (startGame overCountRoom [pb, pa] 5).players.length / 2) := by
  decide

/-- C8 amended: the stored `impostersCount` is always at least 1 —
`createRoom` initializes it to 1 and `setImposterCount` clamps the request
to `[1, memberCount]` (the source's upper clamp divides by 1, not 2) — and
`startGame` leaves the stored field untouched; only the effective count
`numImposters` (min of the stored value and `max 1 (memberCount / 2)`) is
bounded by half the member count. -/
theorem impostersCount_clamped_and_preserved (room r : Room) (c : Int)
    (shuffled : List Player) (now : Nat) (code meId nm : String) :
    1 ≤ (setImposterCount room c).impostersCount
    ∧ ((setImposterCount room c).impostersCount : Int)
        = max 1 (min c (room.players.length : Int))
    ∧ (startGame r shuffled now).impostersCount = r.impostersCount
    ∧ (createRoom code meId nm now).map Room.impostersCount
        = (if jsTrim nm = "" then none else some 1)
    ∧ numImposters r = min r.impostersCount (max 1 (r.players.length / 2)) := by
  refine ⟨?_, ?_, rfl, ?_, rfl⟩
  · simp only [setImposterCount]; omega
  · simp only [setImposterCount]; omega
  · by_cases h : jsTrim nm = "" <;> simp [createRoom, h]

/-- Idempotence contract of `joinRoom`: a second join by the same player is
a success that does not change the room. -/
def JoinIdem (room : Room) (pid nm nm2 : String) (now now2 : Nat) : Prop :=
  (pid ∈ room.players.map Player.id → joinRoom room pid nm now = some room)
  ∧ (∀ r2, joinRoom room pid nm now = some r2 → joinRoom r2 pid nm2 now2 = some r2)

/-- C7: joining a not-started room a second time with the same player id —
with display names that pass the blank-name guard — succeeds and leaves the
room unchanged (the stored name, role and joinedAt of the existing member
are untouched, since the very same room value is returned), so two joins
give the same member count as one. -/
theorem joinRoom_idempotent (room : Room) (pid nm nm2 : String) (now now2 : Nat)
    (hst : room.started = false) (hnm : jsTrim nm ≠ "") (hnm2 : jsTrim nm2 ≠ "") :
    JoinIdem room pid nm nm2 now now2 := by
  constructor
  · intro hmem
    have hany : room.players.any (fun p => p.id == pid) = true := by
      rw [List.any_eq_true]
      rcases List.mem_map.mp hmem with ⟨q, hq, hqid⟩
      exact ⟨q, hq, by simp [hqid]⟩
    simp [joinRoom, hnm, hst, hany]
  · intro r2 h1
    unfold joinRoom at h1
    rw [if_neg hnm, hst] at h1
    simp only [Bool.false_eq_true, if_false] at h1
    by_cases hany : room.players.any (fun p => p.id == pid) = true
    · rw [if_pos hany] at h1
      injection h1 with h1
      subst h1
      simp [joinRoom, hnm2, hst, hany]
    · rw [if_neg hany] at h1
      injection h1 with h1
      subst h1
      simp [joinRoom, hnm2, hst]

/-- C7 witness: Alice rejoining the two-member room she is already in. -/
theorem joinRoom_idempotent_witness : JoinIdem duoRoom "a" "Alice" "Al" 7 8 :=
  joinRoom_idempotent duoRoom "a" "Alice" "Al" 7 8 (by decide) (by decide) (by decide)

/-- Safety contract of both `sendHint` implementations on a room whose
player collection is empty: the Firebase variant returns through its
early-exit branch and the local variant through its not-your-turn branch,
in both cases without producing an updated room (no chat append, no
`turnIndex` write). -/
def EmptyRoomHintSafe (room : Room) (meId nm text : String) (now : Nat) : Prop :=
  sendHintFB room meId nm text now = HintFBOutcome.noop
  ∧ sendHint room meId nm text now = SendHintOutcome.notYourTurn

/-- C10: on a present room with an empty players collection, `sendHint`
changes no state and raises no error in either implementation. -/
theorem sendHint_empty_players_safe (room : Room) (meId nm text : String) (now : Nat)
    (h : room.players = []) : EmptyRoomHintSafe room meId nm text now := by
  unfold EmptyRoomHintSafe sendHintFB sendHint currentPlayer
  rw [h]
  simp

/-- C10 witness: the emptied room produced by kicking the only member. -/
theorem sendHint_empty_players_safe_witness :
    EmptyRoomHintSafe (kickPlayer soloRoom "a") "a" "A" "x" 3 :=
  sendHint_empty_players_safe (kickPlayer soloRoom "a") "a" "A" "x" 3 (by decide)

/-- The actual gating of the local `sendHint` on a nonempty room: the call
is rejected (alert, no state change) exactly when the caller is not the
player at `turnIndex % memberCount` in the stored member-list order; when
the caller matches, the trimmed entry is appended — with no emptiness check
on the text — and the turn advances. -/
def SendHintChecks (r : Room) (meId nm text : String) (now : Nat) : Prop :=
  ∃ cp, currentPlayer r = some cp
    ∧ (cp.id ≠ meId → sendHint r meId nm text now = SendHintOutcome.notYourTurn)
    ∧ (cp.id = meId → sendHint r meId nm text now = SendHintOutcome.ok { r with
        chat := r.chat ++ [ChatMsg.player meId (jsTrim nm) (jsTrim text) now],
        turnIndex := (r.turnIndex + 1) % r.players.length })

/-- C4 amended: on an existing room with at least one member, `sendHint`
fails only through the turn check — the caller must be the member at
position `turnIndex mod memberCount` of the stored member list (insertion
order; the code does not re-sort by joinedAt) — and performs no validation
of the hint text; when the turn check passes it appends the chat entry and
advances the turn, both computed against the current member count. -/
theorem sendHint_turn_gate (r : Room) (meId nm text : String) (now : Nat)
    (hne : r.players ≠ []) : SendHintChecks r meId nm text now := by
  have hlen : 0 < r.players.length := List.length_pos.mpr hne
  have hidx : r.turnIndex % r.players.length < r.players.length := Nat.mod_lt _ hlen
  refine ⟨r.players.get ⟨r.turnIndex % r.players.length, hidx⟩, ?_, ?_, ?_⟩
  · unfold currentPlayer
    simp [List.getElem?_eq_getElem hidx]
  · intro hne2
    unfold sendHint currentPlayer
    simp only [List.getElem?_eq_getElem hidx]
    rw [if_neg]
    exact hne2
  · intro heq
    unfold sendHint currentPlayer
    simp only [List.getElem?_eq_getElem hidx]
    rw [if_pos]
    exact heq

/-- C4 amended witness: Bob calling out of turn in the two-member room
where it is Alice's turn. -/
theorem sendHint_turn_gate_witness : SendHintChecks duoRoom "b" "B" "hi" 4 :=
  sendHint_turn_gate duoRoom "b" "B" "hi" 4 (by decide)

/-- No-lost-update contract for two racing joins: under the store's
serialized optimistic transactions, applying the two join transforms in
either order leaves both callers as distinct members with count 2. -/
def JoinRace (pid1 nm1 : String) (t1 : Nat) (pid2 nm2 : String) (t2 : Nat) : Prop :=
  (joinTransform pid2 nm2 t2 (joinTransform pid1 nm1 t1 [])).length = 2
  ∧ pid1 ∈ (joinTransform pid2 nm2 t2 (joinTransform pid1 nm1 t1 [])).map Player.id
  ∧ pid2 ∈ (joinTransform pid2 nm2 t2 (joinTransform pid1 nm1 t1 [])).map Player.id
  ∧ (joinTransform pid1 nm1 t1 (joinTransform pid2 nm2 t2 [])).length = 2
  ∧ pid1 ∈ (joinTransform pid1 nm1 t1 (joinTransform pid2 nm2 t2 [])).map Player.id
  ∧ pid2 ∈ (joinTransform pid1 nm1 t1 (joinTransform pid2 nm2 t2 [])).map Player.id

/-- C9: two distinct clients joining the same empty slot concurrently both
end up as members with final member count 2, whichever transaction the
store commits first. -/
theorem join_race_no_lost_update (pid1 nm1 : String) (t1 : Nat)
    (pid2 nm2 : String) (t2 : Nat) (hne : pid1 ≠ pid2) :
    JoinRace pid1 nm1 t1 pid2 nm2 t2 := by
  have h12 : (pid1 == pid2) = false := by simp [hne]
  have h21 : (pid2 == pid1) = false := by simp [Ne.symm hne]
  unfold JoinRace joinTransform
  simp [h12, h21]

/-- C9 witness: players "a" and "b" racing to join. -/
theorem join_race_no_lost_update_witness : JoinRace "a" "A" 1 "b" "B" 2 :=
  join_race_no_lost_update "a" "A" 1 "b" "B" 2 (by decide)

/-- Equation for `leaveRoom` on a present room. -/
lemma leaveRoom_some (room : Room) (pid : String) :
    leaveRoom (some room) pid =
      (if room.leaderId = some pid then
        (match room.players.filter (fun p => p.id != pid) with
         | [] => none
         | q :: rest => some { room with players := q :: rest, leaderId := some q.id })
       else some { room with players := room.players.filter (fun p => p.id != pid) }) := rfl

/-- Behaviour of `leaveRoom` claimed for every well-formed room: the
member is removed; when the leader leaves, the earliest-joined survivor is
promoted, or the room is deleted if nobody remains; leaves of absent
members or absent rooms are successful no-ops. -/
def LeaveRoomPost (room : Room) (pid : String) : Prop :=
  (∀ r2, leaveRoom (some room) pid = some r2 → pid ∉ r2.players.map Player.id)
  ∧ (room.players.filter (fun p => p.id != pid) = [] → leaveRoom (some room) pid = none)
  ∧ (room.leaderId = some pid → ∀ r2, leaveRoom (some room) pid = some r2 →
      ∃ q, r2.leaderId = some q.id ∧ q ∈ r2.players ∧ ∀ p ∈ r2.players, q.joinedAt ≤ p.joinedAt)
  ∧ (pid ∉ room.players.map Player.id → leaveRoom (some room) pid = some room)
  ∧ leaveRoom none pid = none

/-- C6: for a room whose member list is in join order (joinedAt ascending,
as maintained by the append-only `joinRoom`) and whose leader is a member,
`leaveRoom` removes the member, promotes an earliest-joined survivor when
the leader left, deletes the room when the last member left, and is a
successful no-op when the room or the member is absent. -/
theorem leaveRoom_leader_promotion (room : Room) (pid L : String)
    (hsort : room.players.Pairwise (fun a b => a.joinedAt ≤ b.joinedAt))
    (hL : room.leaderId = some L) (hLmem : L ∈ room.players.map Player.id) :
    LeaveRoomPost room pid := by
  have hplayers : ∀ r2, leaveRoom (some room) pid = some r2 →
      r2.players = room.players.filter (fun p => p.id != pid) := by
    intro r2 h2
    rw [leaveRoom_some] at h2
    by_cases hld : room.leaderId = some pid
    · rw [if_pos hld] at h2
      rcases hps : room.players.filter (fun p => p.id != pid) with _ | ⟨q, rest⟩
      · rw [hps] at h2; cases h2
      · rw [hps] at h2; injection h2 with h2; subst h2; exact hps.symm
    · rw [if_neg hld] at h2; injection h2 with h2; subst h2; rfl
  refine ⟨?_, ?_, ?_, ?_, rfl⟩
  · intro r2 h2 hmem
    rcases List.mem_map.mp hmem with ⟨p, hp, hpid⟩
    rw [hplayers r2 h2] at hp
    have := (List.mem_filter.mp hp).2
    simp [hpid] at this
  · intro hps
    have hpid : room.leaderId = some pid := by
      rcases List.mem_map.mp hLmem with ⟨q, hq, hqid⟩
      have hq2 : ¬((q.id != pid) = true) := by
        intro hqp
        have : q ∈ room.players.filter (fun p => p.id != pid) :=
          List.mem_filter.mpr ⟨hq, hqp⟩
        rw [hps] at this
        cases this
      have hqpid : q.id = pid := by simpa using hq2
      rw [hL, ← hqid, hqpid]
    rw [leaveRoom_some, if_pos hpid, hps]
  · intro hld r2 h2
    rw [leaveRoom_some, if_pos hld] at h2
    rcases hps : room.players.filter (fun p => p.id != pid) with _ | ⟨q, rest⟩
    · rw [hps] at h2; cases h2
    · rw [hps] at h2; injection h2 with h2; subst h2
      refine ⟨q, rfl, List.mem_cons_self q rest, ?_⟩
      intro p hp
      have hsf : (room.players.filter (fun p => p.id != pid)).Pairwise
          (fun a b => a.joinedAt ≤ b.joinedAt) := hsort.filter _
      rw [hps] at hsf
      change p ∈ q :: rest at hp
      rcases List.mem_cons.mp hp with rfl | hp2
      · exact le_refl _
      · exact (List.pairwise_cons.mp hsf).1 p hp2
  · intro hnot
    have hfil : room.players.filter (fun p => p.id != pid) = room.players := by
      apply List.filter_eq_self.mpr
      intro a ha
      simp only [bne_iff_ne, ne_eq, decide_eq_true_eq]
      intro heq
      exact hnot (List.mem_map.mpr ⟨a, ha, heq⟩)
    have hld : ¬(room.leaderId = some pid) := by
      rw [hL]
      intro hc
      injection hc with hc
      subst hc
      exact hnot hLmem
    rw [leaveRoom_some, if_neg hld, hfil]

/-- C6 witness: the leader of the three-member room leaves; also covers
the one-member deletion and no-op conjuncts at the same concrete room. -/
theorem leaveRoom_leader_promotion_witness : LeaveRoomPost trioRoom "a" :=
  leaveRoom_leader_promotion trioRoom "a" "a" (by decide) (by decide) (by decide)

/-- One valid submission preserves the member list and advances the turn
pointer by one, modulo the current member count. -/
lemma autoHint_step (now : Nat) (r : Room) (h : r.players ≠ []) :
    (autoHint now r).players = r.players
    ∧ (autoHint now r).turnIndex = (r.turnIndex + 1) % r.players.length := by
  have hlen : 0 < r.players.length := List.length_pos.mpr h
  have hidx : r.turnIndex % r.players.length < r.players.length := Nat.mod_lt _ hlen
  unfold autoHint sendHint currentPlayer
  simp [List.getElem?_eq_getElem hidx]

/-- Iterating valid submissions: after k of them, the member list is
unchanged and the turn pointer sits at `(turnIndex + k) mod memberCount`. -/
lemma autoHints_invariant (now : Nat) :
    ∀ (k : Nat) (r : Room), 0 < r.players.length → r.turnIndex < r.players.length →
    (autoHints now k r).players = r.players
    ∧ (autoHints now k r).turnIndex = (r.turnIndex + k) % r.players.length := by
  intro k
  induction k with
  | zero =>
    intro r h1 h2
    exact ⟨rfl, by simp [autoHints, Nat.mod_eq_of_lt h2]⟩
  | succ k ih =>
    intro r h1 h2
    have hne : r.players ≠ [] := List.ne_nil_of_length_pos h1
    obtain ⟨hp, ht⟩ := autoHint_step now r hne
    have h1a : 0 < (autoHint now r).players.length := by rw [hp]; exact h1
    have h2a : (autoHint now r).turnIndex < (autoHint now r).players.length := by
      rw [hp, ht]; exact Nat.mod_lt _ h1
    obtain ⟨ihp, iht⟩ := ih (autoHint now r) h1a h2a
    constructor
    · show (autoHints now k (autoHint now r)).players = r.players
      rw [ihp, hp]
    · show (autoHints now k (autoHint now r)).turnIndex
        = (r.turnIndex + (k + 1)) % r.players.length
      rw [iht, ht, hp, Nat.mod_add_mod]
      congr 1
      omega

/-- The rotation property: starting from `turnIndex = 0`, the k-th of N
valid submissions leaves the pointer at k, every value in `[0, N)` is hit
exactly once, the N-th returns it to 0, and membership is preserved. -/
def TurnRotation (r : Room) (N now : Nat) : Prop :=
  (∀ k, k < N → (autoHints now k r).turnIndex = k)
  ∧ (autoHints now N r).turnIndex = 0
  ∧ (∀ k, (autoHints now k r).players = r.players)

/-- C3: in a started room with N members and turn pointer 0, N consecutive
valid `sendHint` calls (each issued by the positional current player, the
modulo recomputed against the current member count on every submission)
drive `turnIndex` through every value of `[0, N)` exactly once and back
to 0. -/
theorem sendHint_turn_rotation (r : Room) (N now : Nat)
    (hlen : r.players.length = N) (hN : 1 ≤ N)
    (_hst : r.started = true) (ht0 : r.turnIndex = 0) :
    TurnRotation r N now := by
  have h1 : 0 < r.players.length := by omega
  have h2 : r.turnIndex < r.players.length := by omega
  refine ⟨?_, ?_, ?_⟩
  · intro k hk
    obtain ⟨-, ht⟩ := autoHints_invariant now k r h1 h2
    rw [ht, ht0, hlen]
    simp [Nat.mod_eq_of_lt hk]
  · obtain ⟨-, ht⟩ := autoHints_invariant now N r h1 h2
    rw [ht, ht0, hlen]
    simp
  · intro k
    exact (autoHints_invariant now k r h1 h2).1

/-- A started copy of the three-member room. -/
def startedTrio : Room := { trioRoom with started := true }

/-- C3 witness: a full rotation over the started three-member room. -/
theorem sendHint_turn_rotation_witness : TurnRotation startedTrio 3 0 :=
  sendHint_turn_rotation startedTrio 3 0 (by decide) (by decide) (by decide) (by decide)

/-- Counting members of a duplicate-free selection: over a duplicate-free
id list, the ids selected by membership in a duplicate-free subset L
number exactly L.length. -/
lemma countP_mem_eq_length {α : Type} [DecidableEq α] {ids L : List α}
    (hids : ids.Nodup) (hL : L.Nodup) (hsub : ∀ a ∈ L, a ∈ ids) :
    ids.countP (fun a => decide (a ∈ L)) = L.length := by
  rw [List.countP_eq_length_filter]
  refine List.Perm.length_eq ?_
  rw [List.perm_ext_iff_of_nodup (hids.filter _) hL]
  intro a
  simp only [List.mem_filter, decide_eq_true_eq]
  exact ⟨fun h => h.2, fun h => ⟨hsub a h, h⟩⟩

/-- A predicate and its Boolean negation count up to the length. -/
lemma countP_bnot_add {α : Type} (f : α → Bool) (l : List α) :
    l.countP (fun a => !(f a)) + l.countP f = l.length := by
  induction l with
  | nil => rfl
  | cons x xs ih =>
    by_cases h : f x = true <;> simp [List.countP_cons, h] <;> omega

/-- Postcondition of `startGame`: game started, turn pointer reset, one
system chat entry reporting the imposter count appended, and the roles
partition the members with exactly `numImposters` imposters. -/
def StartGamePost (r : Room) (shuffled : List Player) (now : Nat) : Prop :=
  (startGame r shuffled now).started = true
  ∧ (startGame r shuffled now).turnIndex = 0
  ∧ (startGame r shuffled now).chat = r.chat ++ [ChatMsg.system
      ("Game started. " ++ toString (numImposters r) ++ " imposters assigned.") now]
  ∧ (startGame r shuffled now).players.countP (fun p => p.role == "imposter")
      = numImposters r
  ∧ (startGame r shuffled now).players.countP (fun p => p.role == "crewmate")
      = r.players.length - numImposters r
  ∧ numImposters r = min r.impostersCount (max 1 (r.players.length / 2))

/-- C2: starting a not-yet-started room with n ≥ 1 members (the random
shuffle being some permutation of the member list, member ids distinct)
sets `started`, resets `turnIndex` to 0, appends one system chat entry
reporting the imposter count, and gives exactly
`min(impostersCount, max(1, floor(n / 2)))` members the imposter role with
every other member a crewmate. -/
theorem startGame_role_partition (r : Room) (shuffled : List Player) (now : Nat)
    (hn : 1 ≤ r.players.length) (_hst : r.started = false)
    (hperm : shuffled.Perm r.players) (hnodup : (r.players.map Player.id).Nodup) :
    StartGamePost r shuffled now := by
  have hkn : numImposters r ≤ r.players.length := by
    unfold numImposters; omega
  have hLeq : (shuffled.take (numImposters r)).map Player.id
      = (shuffled.map Player.id).take (numImposters r) := by
    rw [List.map_take]
  have hshufids : (shuffled.map Player.id).Nodup :=
    ((hperm.map Player.id).nodup_iff).mpr hnodup
  have hLnodup : ((shuffled.take (numImposters r)).map Player.id).Nodup := by
    rw [hLeq]; exact (List.take_sublist _ _).nodup hshufids
  have hLlen : ((shuffled.take (numImposters r)).map Player.id).length
      = numImposters r := by
    rw [hLeq, List.length_take, List.length_map, hperm.length_eq]
    omega
  have hsub : ∀ a ∈ (shuffled.take (numImposters r)).map Player.id,
      a ∈ r.players.map Player.id := by
    intro a ha
    rw [hLeq] at ha
    exact (hperm.map Player.id).mem_iff.mp ((List.take_sublist _ _).mem ha)
  have hkey : r.players.countP
      (fun p => decide (p.id ∈ (shuffled.take (numImposters r)).map Player.id))
      = ((shuffled.take (numImposters r)).map Player.id).length := by
    have h1 := countP_mem_eq_length hnodup hLnodup hsub
    rw [List.countP_map] at h1
    exact h1
  have hplayers : (startGame r shuffled now).players
      = r.players.map (fun p =>
          { p with role := if p.id ∈ (shuffled.take (numImposters r)).map Player.id
                           then "imposter" else "crewmate" }) := rfl
  have himp : (startGame r shuffled now).players.countP (fun p => p.role == "imposter")
      = numImposters r := by
    rw [hplayers, List.countP_map]
    have hcong : r.players.countP
        ((fun q => q.role == "imposter") ∘ (fun p =>
          { p with role := if p.id ∈ (shuffled.take (numImposters r)).map Player.id
                           then "imposter" else "crewmate" }))
        = r.players.countP (fun p =>
            decide (p.id ∈ (shuffled.take (numImposters r)).map Player.id)) := by
      apply List.countP_congr
      intro p _
      by_cases hmem : p.id ∈ (shuffled.take (numImposters r)).map Player.id <;>
        simp [hmem, Function.comp]
    rw [hcong, hkey]
    exact hLlen
  refine ⟨rfl, rfl, rfl, himp, ?_, rfl⟩
  have hcrew0 : (startGame r shuffled now).players.countP (fun p => p.role == "crewmate")
      = r.players.countP (fun p =>
          !(decide (p.id ∈ (shuffled.take (numImposters r)).map Player.id))) := by
    rw [hplayers, List.countP_map]
    apply List.countP_congr
    intro p _
    by_cases hmem : p.id ∈ (shuffled.take (numImposters r)).map Player.id <;>
      simp [hmem, Function.comp]
  have hsum : r.players.countP (fun p =>
        !(decide (p.id ∈ (shuffled.take (numImposters r)).map Player.id)))
      + r.players.countP (fun p =>
        decide (p.id ∈ (shuffled.take (numImposters r)).map Player.id))
      = r.players.length :=
    countP_bnot_add
      (fun p => decide (p.id ∈ (shuffled.take (numImposters r)).map Player.id))
      r.players
  rw [hcrew0]
  omega

/-- C2 witness: the two-member room, with the shuffle reversing the list. -/
theorem startGame_role_partition_witness : StartGamePost duoRoom [pb, pa] 9 :=
  startGame_role_partition duoRoom [pb, pa] 9 (by decide) (by decide)
    (by decide) (by decide)

end Imposter
